import Mathlib

/-!
Shallow embedding of the battery-report parsing and session-segmentation
engine of the `sot-tracker` repository (`src/lib/battery-parser.ts`,
`SessionDetector` in `src/unnamed/part_001`), together with theorems
settling the specification claims about it.

Modelling conventions:
* JavaScript numbers are modelled as `Int` where the source only ever holds
  integers (percent, mWh, minutesOffset) and as `ℚ` where real division
  occurs (minutes, drain rates, averages).
* `new Date(s).getTime()` is modelled by `jsGetTime : String → Option Nat`
  (seconds since year 0 of the proleptic Gregorian calendar, local time;
  the source data carries no timezone).  `none` models an invalid date
  (JavaScript `NaN`).  The accepted grammar is exactly the timestamp shape
  the parser constructs: `YYYY-MM-DD H:MM:SS` or `YYYY-MM-DD HH:MM:SS`
  with in-range month, day-of-month, hour ≤ 23, minute ≤ 59, second ≤ 59.
* `Math.round` is `jsRound q = ⌊q + 1/2⌋` (JavaScript rounds half toward
  +∞), and `Number(x.toFixed(2))` is `round2 q = jsRound (100 q) / 100`
  (exact for the non-negative rates produced here).
* The wall-clock fallback date (`new Date()` when a log has no date at
  all) is passed in as an explicit `today` parameter.
* A captured `mWh` group consisting only of commas makes `parseInt` return
  `NaN` in JavaScript; the model maps this degenerate capture to `none`.
-/

namespace SotTracker

/-- Battery state after normalisation (`BatteryEvent.state` in
`battery-parser.ts`). -/
inductive BatteryState where
  | Active
  | Idle
  | Charging
  | Unknown
deriving DecidableEq, Repr

/-- One timeline sample (`BatteryEvent` in `battery-parser.ts`). -/
structure BatteryEvent where
  timestamp : String
  minutesOffset : Int
  state : BatteryState
  percent : Int
  mWh : Option Int
  rawState : String
deriving DecidableEq, Repr

/-- Model of `metadata.timeRange` of `ParsedBatteryData`; `stop` renders the source
field `end` (a reserved word in Lean). -/
structure TimeRange where
  start : String
  stop : String
deriving DecidableEq, Repr

/-- Model of `metadata` of `ParsedBatteryData`. -/
structure Metadata where
  totalEvents : Nat
  hasEnergyData : Bool
  timeRange : TimeRange
deriving DecidableEq, Repr

/-- Parse result (`ParsedBatteryData` in `battery-parser.ts`); `startDate`
is modelled as the instant (seconds) of the first valid event. -/
structure ParsedBatteryData where
  events : List BatteryEvent
  startDate : Option Nat
  errors : List String
  metadata : Metadata
deriving DecidableEq, Repr

/-! ### Character-level helpers (JavaScript regex building blocks) -/

/-- ASCII digit test, matching the regex class `\d`. -/
def isDig (c : Char) : Bool := '0' ≤ c && c ≤ '9'

/-- JavaScript regex whitespace class `\s`, restricted to the characters
that can occur in the source logs. -/
def isWs (c : Char) : Bool :=
  c == ' ' || c == '\t' || c == '\r' || c == '\n' || c == '\x0b' || c == '\x0c'

/-- Numeric value of a digit string. -/
def digitsToNat (cs : List Char) : Nat :=
  cs.foldl (fun a c => a * 10 + (c.toNat - 48)) 0

/-- String.trim as applied line-by-line by the parser. -/
def trimWs (cs : List Char) : List Char :=
  ((cs.dropWhile isWs).reverse.dropWhile isWs).reverse

/-- Substring containment (JavaScript `String.prototype.includes`). -/
def containsSub (needle : List Char) : List Char → Bool
  | [] => needle.isEmpty
  | c :: cs => needle.isPrefixOf (c :: cs) || containsSub needle cs

/-! ### The tokenizer `line.split(/\t+|\s{2,}/)` -/

/-- Length of the separator matched at the current position by the regex
`\t+|\s{2,}` (the `\t+` alternative is tried first), if any. -/
def sepLen (cs : List Char) : Option Nat :=
  let tabs := (cs.takeWhile (· == '\t')).length
  if tabs > 0 then some tabs
  else
    let ws := (cs.takeWhile isWs).length
    if ws ≥ 2 then some ws else none

/-- Worker for `jsSplit`; `fuel` dominates the length of the remaining
input so that the recursion is structural. -/
def jsSplitGo : Nat → List Char → List Char → List (List Char)
  | 0, _, tok => [tok.reverse]
  | _ + 1, [], tok => [tok.reverse]
  | fuel + 1, c :: cs, tok =>
    match sepLen (c :: cs) with
    | some n => tok.reverse :: jsSplitGo fuel (List.drop n (c :: cs)) []
    | none => jsSplitGo fuel cs (c :: tok)

/-- JavaScript `line.split(/\t+|\s{2,}/)`. -/
def jsSplit (cs : List Char) : List (List Char) :=
  jsSplitGo cs.length cs []

/-! ### The timestamp regex `^(?:(\d{4}-\d{2}-\d{2})\s*)?(\d{1,2}:\d{2}:\d{2})` -/

/-- Match the date group `\d{4}-\d{2}-\d{2}` at the start of the input,
returning the matched characters and the rest. -/
def matchDate : List Char → Option (List Char × List Char)
  | y1 :: y2 :: y3 :: y4 :: '-' :: m1 :: m2 :: '-' :: d1 :: d2 :: rest =>
    if isDig y1 && isDig y2 && isDig y3 && isDig y4 && isDig m1 && isDig m2
        && isDig d1 && isDig d2 then
      some ([y1, y2, y3, y4, '-', m1, m2, '-', d1, d2], rest)
    else none
  | _ => none

/-- Match `\d{1}:\d{2}:\d{2}` at the start of the input (the backtracked
one-digit-hour alternative of `\d{1,2}`). -/
def matchTime1 : List Char → Option (List Char)
  | a :: ':' :: c :: d :: ':' :: e :: f :: _ =>
    if isDig a && isDig c && isDig d && isDig e && isDig f then
      some [a, ':', c, d, ':', e, f]
    else none
  | _ => none

/-- Match `\d{1,2}:\d{2}:\d{2}` at the start of the input; the greedy
two-digit hour is tried first, then the one-digit fallback. -/
def matchTime (cs : List Char) : Option (List Char) :=
  match cs with
  | a :: b :: ':' :: c :: d :: ':' :: e :: f :: _ =>
    if isDig a && isDig b && isDig c && isDig d && isDig e && isDig f then
      some [a, b, ':', c, d, ':', e, f]
    else matchTime1 cs
  | _ => matchTime1 cs

/-- The anchored timestamp regex: returns the optional date capture and the
time capture.  When the date group matches but no time follows it, the
regex engine backtracks and retries with the optional group empty. -/
def matchTS (cs : List Char) : Option (Option (List Char) × List Char) :=
  match matchDate cs with
  | some (d, rest) =>
    match matchTime (rest.dropWhile isWs) with
    | some t => some (some d, t)
    | none => (matchTime cs).map (fun t => (none, t))
  | none => (matchTime cs).map (fun t => (none, t))

/-! ### The percent regex `(\d{1,3})\s*%` (leftmost match anywhere) -/

/-- Try to match `(\d{1,3})\s*%` at the current position, greedily
preferring longer digit captures (regex backtracking order 3, 2, 1). -/
def pctAt (cs : List Char) : Option (List Char) :=
  let run := cs.takeWhile isDig
  let tryLen : Nat → Option (List Char) := fun k =>
    if k = 0 || run.length < k then none
    else
      match (List.drop k cs).dropWhile isWs with
      | '%' :: _ => some (cs.take k)
      | _ => none
  (tryLen 3).orElse fun _ => (tryLen 2).orElse fun _ => tryLen 1

/-- Leftmost match of `(\d{1,3})\s*%` in the line, as JavaScript
`line.match(PERCENT_REGEX)`; returns the digit capture. -/
def findPct : List Char → Option (List Char)
  | [] => none
  | c :: cs => (pctAt (c :: cs)).orElse fun _ => findPct cs

/-! ### The energy regex `([\d,]+)\s*mWh` (leftmost match anywhere) -/

/-- Try to match `([\d,]+)\s*mWh` at the current position.  The greedy
capture takes the maximal run of digits/commas; shorter captures cannot be
followed by `m`, so no further backtracking is observable. -/
def mwhAt (cs : List Char) : Option (List Char) :=
  let run := cs.takeWhile (fun c => isDig c || c == ',')
  if run.length = 0 then none
  else if "mWh".toList.isPrefixOf ((List.drop run.length cs).dropWhile isWs) then
    some run
  else none

/-- Leftmost match of `([\d,]+)\s*mWh` in the line; returns the capture. -/
def findMwh : List Char → Option (List Char)
  | [] => none
  | c :: cs => (mwhAt (c :: cs)).orElse fun _ => findMwh cs

/-! ### The JavaScript date model -/

/-- Gregorian leap-year test. -/
def isLeapYear (y : Nat) : Bool :=
  (y % 4 == 0 && y % 100 != 0) || y % 400 == 0

/-- Days in a month of the Gregorian calendar. -/
def daysInMonth (y m : Nat) : Nat :=
  if m = 2 then (if isLeapYear y then 29 else 28)
  else if m = 4 ∨ m = 6 ∨ m = 9 ∨ m = 11 then 30
  else 31

/-- Days contributed by the months of year `y` strictly before month `m`. -/
def daysBeforeMonth (y m : Nat) : Nat :=
  (List.range (m - 1)).foldl (fun a k => a + daysInMonth y (k + 1)) 0

/-- Number of leap years in `[0, y)` of the proleptic Gregorian calendar
(year 0 is a leap year). -/
def leapsBefore (y : Nat) : Nat :=
  if y = 0 then 0 else (y - 1) / 4 - (y - 1) / 100 + (y - 1) / 400 + 1

/-- Day count of the given calendar date from `0000-01-01`. -/
def daysSinceYear0 (y m d : Nat) : Nat :=
  365 * y + leapsBefore y + daysBeforeMonth y m + (d - 1)

/-- Range validity of a calendar date-time, as validated by the JavaScript
date parser on the timestamp shapes this program constructs. -/
def validDateTime (y m d hh mm ss : Nat) : Bool :=
  1 ≤ m && m ≤ 12 && 1 ≤ d && d ≤ daysInMonth y m && hh ≤ 23 && mm ≤ 59 && ss ≤ 59

/-- Seconds since `0000-01-01 00:00:00`. -/
def timeVal (y m d hh mm ss : Nat) : Nat :=
  daysSinceYear0 y m d * 86400 + hh * 3600 + mm * 60 + ss

/-- Parse the time-of-day part `H:MM:SS` or `HH:MM:SS` (whole remainder of
the timestamp string). -/
def parseTimePart : List Char → Option (Nat × Nat × Nat)
  | [a, b, ':', c, d, ':', e, f] =>
    if isDig a && isDig b && isDig c && isDig d && isDig e && isDig f then
      some (digitsToNat [a, b], digitsToNat [c, d], digitsToNat [e, f])
    else none
  | [a, ':', c, d, ':', e, f] =>
    if isDig a && isDig c && isDig d && isDig e && isDig f then
      some (digitsToNat [a], digitsToNat [c, d], digitsToNat [e, f])
    else none
  | _ => none

/-- Model of `new Date(s).getTime()` on the strings this program builds:
`none` is JavaScript's invalid date (`NaN`). -/
def jsGetTime (s : String) : Option Nat :=
  match s.toList with
  | y1 :: y2 :: y3 :: y4 :: '-' :: m1 :: m2 :: '-' :: d1 :: d2 :: ' ' :: rest =>
    if isDig y1 && isDig y2 && isDig y3 && isDig y4 && isDig m1 && isDig m2
        && isDig d1 && isDig d2 then
      let y := digitsToNat [y1, y2, y3, y4]
      let m := digitsToNat [m1, m2]
      let d := digitsToNat [d1, d2]
      match parseTimePart rest with
      | some (hh, mm, ss) =>
        if validDateTime y m d hh mm ss then some (timeVal y m d hh mm ss) else none
      | none => none
    else none
  | _ => none

/-- Model of `Math.round`: JavaScript rounds half toward positive infinity. -/
def jsRound (q : ℚ) : Int := ⌊q + 1 / 2⌋

/-- Model of `Number(x.toFixed(2))`, exact on the rationals involved here. -/
def round2 (q : ℚ) : ℚ := (jsRound (q * 100) : ℚ) / 100

/-- Zero-padded two-digit rendering (`String(n).padStart(2, "0")`). -/
def pad2 (n : Nat) : String :=
  if n < 10 then "0" ++ toString n else toString n

/-- Previous calendar day of a `YYYY-MM-DD` capture, as computed by
`parseText` with `new Date(d)` / `setDate(getDate() - 1)` and re-formatted;
an out-of-range date yields the JavaScript artifact `"NaN-NaN-NaN"`. -/
def prevDayStr (dc : List Char) : String :=
  match dc with
  | [y1, y2, y3, y4, '-', m1, m2, '-', d1, d2] =>
    let y := digitsToNat [y1, y2, y3, y4]
    let m := digitsToNat [m1, m2]
    let d := digitsToNat [d1, d2]
    if 1 ≤ m && m ≤ 12 && 1 ≤ d && d ≤ daysInMonth y m then
      if d > 1 then toString y ++ "-" ++ pad2 m ++ "-" ++ pad2 (d - 1)
      else if m > 1 then toString y ++ "-" ++ pad2 (m - 1) ++ "-" ++ pad2 (daysInMonth y (m - 1))
      else toString (y - 1) ++ "-" ++ pad2 12 ++ "-" ++ pad2 31
    else "NaN-NaN-NaN"
  | _ => "NaN-NaN-NaN"

/-! ### Line parsing (`BatteryLogParser.parseLine`) -/

/-- Default event used to make total the indexings the source performs on
arrays it has bounds-checked. -/
def dummyEvent : BatteryEvent :=
  { timestamp := "", minutesOffset := 0, state := .Unknown, percent := 0,
    mWh := none, rawState := "" }

/-- The `normalizeState` map: case-insensitive substring matching, first match
wins. -/
def normalizeState (rawState : List Char) : BatteryState :=
  let s := rawState.map Char.toLower
  if containsSub "active".toList s then .Active
  else if containsSub "standby".toList s || containsSub "suspended".toList s
      || containsSub "sleep".toList s then .Idle
  else if containsSub "charging".toList s || containsSub "plugged".toList s
      || containsSub "ac".toList s then .Charging
  else .Unknown

/-- The timestamp assembled by the date-inference cascade of `parseLine`
(the mutable `timestamp` variable of the source): explicit date, else
`lastSeenDate`, else `previousDay`, else the current calendar date. -/
def inferTimestamp (dateStr : Option (List Char)) (timeStr : List Char)
    (lastSeenDate previousDay : Option String) (today : String) : String :=
  match dateStr with
  | some d => String.mk d ++ " " ++ String.mk timeStr
  | none =>
    match lastSeenDate with
    | some d => d ++ " " ++ String.mk timeStr
    | none =>
      match previousDay with
      | some p => p ++ " " ++ String.mk timeStr
      | none => today ++ " " ++ String.mk timeStr

/-- The `updatedDate` produced by the same cascade (the source sets it on
an explicit date and on the current-date fallback only). -/
def inferUpdatedDate (dateStr : Option (List Char))
    (lastSeenDate previousDay : Option String) (today : String) : Option String :=
  match dateStr with
  | some d => some (String.mk d)
  | none =>
    match lastSeenDate with
    | some _ => none
    | none =>
      match previousDay with
      | some _ => none
      | none => some today

/-- Result of `parseLine`: the constructed event plus the date to carry
forward as `lastSeenDate`, when the line supplied one. -/
structure LineResult where
  event : BatteryEvent
  updatedDate : Option String
deriving DecidableEq, Repr

/-- Model of `BatteryLogParser.parseLine`: structural checks, tokenization,
timestamp extraction with date inference, state normalisation, percent and
optional mWh extraction.  `none` is the silent skip of the source. -/
def parseLine (line : String) (lastSeenDate previousDay : Option String)
    (today : String) : Option LineResult :=
  let cs := line.toList
  if cs.contains '<' || containsSub "Report generated".toList cs || cs.length < 10 then
    none
  else
    let parts := (jsSplit cs).filter (fun p => (trimWs p).length > 0)
    if parts.length < 3 then none
    else
      match matchTS (parts.getD 0 []) with
      | none => none
      | some (dateStr, timeStr) =>
        let rawState := parts.getD 1 []
        let state := normalizeState rawState
        match findPct cs with
        | none => none
        | some digits =>
          let percent : Int := digitsToNat digits
          let mWh : Option Int := (findMwh cs).bind fun run =>
            let ds := run.filter isDig
            if ds.isEmpty then none else some (digitsToNat ds)
          some { event := { timestamp :=
                              inferTimestamp dateStr timeStr lastSeenDate previousDay today,
                            minutesOffset := 0, state := state,
                            percent := percent, mWh := mWh, rawState := String.mk rawState },
                 updatedDate := inferUpdatedDate dateStr lastSeenDate previousDay today }

/-! ### `BatteryLogParser.parseText` -/

/-- Non-empty trimmed lines of the input. -/
def linesOf (text : String) : List (List Char) :=
  ((text.toList.splitOn '\n').map trimWs).filter (fun l => l.length > 0)

/-- Pre-scan for the first timestamp carrying an explicit calendar date. -/
def firstFullDate (lines : List (List Char)) : Option (List Char) :=
  lines.findSome? fun l =>
    match matchTS l with
    | some (some d, _) => some d
    | _ => none

/-- Accumulator threaded through the line loop of `parseText`: 1-based
line counter, `lastSeenDate`, `startDate`, and the events and errors
collected so far. -/
structure PState where
  idx : Nat
  lastSeenDate : Option String
  startDate : Option Nat
  events : List BatteryEvent
  errors : List String
deriving Repr

/-- One iteration of the `parseText` line loop: parse the line, carry the
date forward, then either record the event or an invalid-timestamp
diagnostic. -/
def processLine (today : String) (previousDay : Option String)
    (st : PState) (line : List Char) : PState :=
  match parseLine (String.mk line) st.lastSeenDate previousDay today with
  | none => { st with idx := st.idx + 1 }
  | some r =>
    let lastSeen := match r.updatedDate with
      | some d => some d
      | none => st.lastSeenDate
    match jsGetTime r.event.timestamp with
    | none =>
      { st with
        idx := st.idx + 1
        lastSeenDate := lastSeen
        errors := st.errors ++
          ["Line " ++ toString st.idx ++ ": Invalid timestamp: " ++ r.event.timestamp] }
    | some t =>
      { st with
        idx := st.idx + 1
        lastSeenDate := lastSeen
        startDate := match st.startDate with
          | some s => some s
          | none => some t
        events := st.events ++ [r.event] }

/-- After the loop, every event's `minutesOffset` becomes the rounded
minute difference from the first parsed event. -/
def assignOffsets (evs : List BatteryEvent) : List BatteryEvent :=
  match evs with
  | [] => []
  | e0 :: _ =>
    let t0 : Int := ((jsGetTime e0.timestamp).getD 0 : Nat)
    evs.map fun e =>
      { e with minutesOffset :=
          jsRound (((((jsGetTime e.timestamp).getD 0 : Nat) : Int) - t0 : Int) / 60) }

/-- Comparator of the final `events.sort`, by parsed timestamp. -/
def eventLe (a b : BatteryEvent) : Bool :=
  (jsGetTime a.timestamp).getD 0 ≤ (jsGetTime b.timestamp).getD 0

/-- The final stable sort of `parseText`. -/
def sortEvents (evs : List BatteryEvent) : List BatteryEvent :=
  evs.mergeSort eventLe

/-- The state after the line loop of `parseText`: all lines processed in
order, threading `lastSeenDate` and collecting events and errors. -/
def parseState (text : String) (today : String) : PState :=
  let lines := linesOf text
  let previousDay := (firstFullDate lines).map prevDayStr
  lines.foldl (processLine today previousDay)
    { idx := 1, lastSeenDate := none, startDate := none, events := [], errors := [] }

/-- Model of `BatteryLogParser.parseText`.  Here `today` stands for the wall-clock
calendar date `new Date()` the source falls back to. -/
def parseText (text : String) (today : String) : ParsedBatteryData :=
  let st := parseState text today
  let events := sortEvents (assignOffsets st.events)
  { events := events
    startDate := st.startDate
    errors := st.errors
    metadata :=
      { totalEvents := events.length
        hasEnergyData := events.any (fun e => e.mWh.isSome)
        timeRange :=
          { start := match events.head? with
              | some e => e.timestamp
              | none => ""
            stop := match events.getLast? with
              | some e => e.timestamp
              | none => "" } } }

/-! ### Session detector data model (`src/unnamed/part_001`) -/

/-- A derived aggregate over a contiguous slice of events
(`BatterySession`). -/
structure BatterySession where
  sessionId : Nat
  startTime : String
  endTime : String
  startPct : Int
  endPct : Int
  usedPct : Int
  startmWh : Option Int
  endmWh : Option Int
  usedmWh : Option Int
  durationMin : ℚ
  activeMinutes : ℚ
  idleMinutes : ℚ
  chargingMinutes : ℚ
  activeDrainPct : ℚ
  idleDrainPct : ℚ
  activeRate_pct_per_hr : ℚ
  idleRate_pct_per_hr : ℚ
  activeRate_mWh_per_hr : Option ℚ
  idleRate_mWh_per_hr : Option ℚ
  events : List BatteryEvent
  isComplete : Bool
deriving DecidableEq, Repr

/-- Model of `settings` of a `SessionAnalysis`. -/
structure Settings where
  fullChargeThreshold : ℚ
deriving DecidableEq, Repr

/-- Model of `summary` of a `SessionAnalysis`. -/
structure Summary where
  totalSessions : Nat
  avgScreenOnTime : ℚ
  avgActiveDrain : ℚ
  avgIdleDrain : ℚ
deriving DecidableEq, Repr

/-- Top-level segmentation result (`SessionAnalysis`). -/
structure SessionAnalysis where
  sessions : List BatterySession
  fullChargeEvents : List Nat
  settings : Settings
  summary : Summary
deriving DecidableEq, Repr

/-- The constant `SessionDetector.DEFAULT_FULL_CHARGE_THRESHOLD`. -/
def DEFAULT_FULL_CHARGE_THRESHOLD : ℚ := 98

/-! ### Full-charge detection (`SessionDetector.findFullChargeEvents`) -/

/-- The full-charge condition tested at index `i`: high percentage, or
charging near the threshold, or an upward crossing of the threshold. -/
def fullChargeCond (events : List BatteryEvent) (threshold : ℚ) (i : Nat) : Bool :=
  let event := events.getD i dummyEvent
  decide ((event.percent : ℚ) ≥ threshold)
    || (event.state == .Charging && decide ((event.percent : ℚ) ≥ threshold - 2))
    || (decide (0 < i) && decide (((events.getD (i - 1) dummyEvent).percent : ℚ) < threshold)
        && decide ((event.percent : ℚ) ≥ threshold))

/-- One iteration of the scan loop of `findFullChargeEvents`: record `i`
when the condition holds unless the previously recorded boundary is within
5 index positions. -/
def findFCStep (events : List BatteryEvent) (threshold : ℚ)
    (acc : List Nat) (i : Nat) : List Nat :=
  if fullChargeCond events threshold i &&
      (match acc.getLast? with
       | none => true
       | some lastFullCharge => decide (lastFullCharge + 5 < i)) then
    acc ++ [i]
  else acc

/-- Model of `SessionDetector.findFullChargeEvents`: the `for` loop over all event
indices. -/
def findFullChargeEvents (events : List BatteryEvent) (threshold : ℚ) : List Nat :=
  (List.range events.length).foldl (findFCStep events threshold) []

/-! ### Session carving (`SessionDetector.createSessions`) -/

/-- JavaScript `Array.prototype.slice(a, b)` (half-open, clamped). -/
def jsSlice (l : List BatteryEvent) (a b : Nat) : List BatteryEvent :=
  (l.drop a).take (b - a)

/-- The inner loop of `createSessions`: first index `j` with
`sessionStart ≤ j ≤ sessionEnd`, `j < events.length` and a non-charging
state; defaults to `sessionStart`. -/
def dischargeStart (events : List BatteryEvent) (sessionStart sessionEnd : Nat) : Nat :=
  match (List.range' sessionStart (min (sessionEnd + 1) events.length - sessionStart)).find?
      (fun j => (events.getD j dummyEvent).state != .Charging) with
  | some j => j
  | none => sessionStart

/-- Start and end index (inclusive) of the slice carved for boundary `i`. -/
def sessionRange (events : List BatteryEvent) (fce : List Nat) (i : Nat) : Nat × Nat :=
  let sessionStart := fce.getD i 0
  let sessionEnd := if i < fce.length - 1 then fce.getD (i + 1) 0 else events.length - 1
  (dischargeStart events sessionStart sessionEnd, sessionEnd)

/-- Model of `SessionDetector.createSessions`: one whole-log session when no
boundary was found, otherwise one candidate slice per boundary, kept when
it has more than one event. -/
def createSessions (events : List BatteryEvent) (fce : List Nat) :
    List (List BatteryEvent) :=
  if fce.isEmpty then [events]
  else
    ((List.range fce.length).map fun i =>
        let r := sessionRange events fce i
        jsSlice events r.1 (r.2 + 1)).filter
      (fun sessionEvents => sessionEvents.length > 1)

/-! ### Per-session metrics (`SessionDetector.analyzeSession`) -/

/-- JavaScript truthiness of an optional numeric field. -/
def jsTruthy : Option Int → Bool
  | none => false
  | some n => n != 0

/-- The parsed instant of an event's timestamp, as a rational (minute and
rate arithmetic divides it). -/
def tQ (e : BatteryEvent) : ℚ := (((jsGetTime e.timestamp).getD 0 : Nat) : ℚ)

/-- Accumulators of the consecutive-pair loop of `analyzeSession`. -/
structure DrainAccum where
  activeMinutes : ℚ
  idleMinutes : ℚ
  chargingMinutes : ℚ
  activeDrainPct : ℚ
  idleDrainPct : ℚ
  activeDrainmWh : ℚ
  idleDrainmWh : ℚ
deriving DecidableEq, Repr

/-- One iteration of the pair loop: the interval and drain to the next
event are attributed to the current (left) event's state bucket; an
`Unknown` state is attributed nowhere. -/
def drainStep (acc : DrainAccum) (pair : BatteryEvent × BatteryEvent) : DrainAccum :=
  let currentEvent := pair.1
  let nextEvent := pair.2
  let deltaMinutes : ℚ := max 0 ((tQ nextEvent - tQ currentEvent) / 60)
  let drainPct : ℚ := max 0 ((currentEvent.percent : ℚ) - (nextEvent.percent : ℚ))
  let drainmWh : ℚ :=
    if jsTruthy currentEvent.mWh && jsTruthy nextEvent.mWh then
      max 0 (((currentEvent.mWh.getD 0 : Int) : ℚ) - ((nextEvent.mWh.getD 0 : Int) : ℚ))
    else 0
  match currentEvent.state with
  | .Active =>
    { acc with
      activeMinutes := acc.activeMinutes + deltaMinutes
      activeDrainPct := acc.activeDrainPct + drainPct
      activeDrainmWh := acc.activeDrainmWh + drainmWh }
  | .Idle =>
    { acc with
      idleMinutes := acc.idleMinutes + deltaMinutes
      idleDrainPct := acc.idleDrainPct + drainPct
      idleDrainmWh := acc.idleDrainmWh + drainmWh }
  | .Charging => { acc with chargingMinutes := acc.chargingMinutes + deltaMinutes }
  | .Unknown => acc

/-- Model of `SessionDetector.createEmptySession`. -/
def createEmptySession (sessionId : Nat) : BatterySession :=
  { sessionId := sessionId
    startTime := ""
    endTime := ""
    startPct := 0
    endPct := 0
    usedPct := 0
    startmWh := none
    endmWh := none
    usedmWh := none
    durationMin := 0
    activeMinutes := 0
    idleMinutes := 0
    chargingMinutes := 0
    activeDrainPct := 0
    idleDrainPct := 0
    activeRate_pct_per_hr := 0
    idleRate_pct_per_hr := 0
    activeRate_mWh_per_hr := none
    idleRate_mWh_per_hr := none
    events := []
    isComplete := false }

/-- Model of `SessionDetector.analyzeSession`. -/
def analyzeSession (events : List BatteryEvent) (sessionId : Nat) : BatterySession :=
  match events with
  | [] => createEmptySession sessionId
  | firstEvent :: _ =>
    let lastEvent := events.getLastD dummyEvent
    let startPct := firstEvent.percent
    let endPct := lastEvent.percent
    let startmWh := firstEvent.mWh
    let endmWh := lastEvent.mWh
    let acc := (events.zip events.tail).foldl drainStep
      { activeMinutes := 0, idleMinutes := 0, chargingMinutes := 0,
        activeDrainPct := 0, idleDrainPct := 0, activeDrainmWh := 0, idleDrainmWh := 0 }
    { sessionId := sessionId
      startTime := firstEvent.timestamp
      endTime := lastEvent.timestamp
      startPct := startPct
      endPct := endPct
      usedPct := max 0 (startPct - endPct)
      startmWh := startmWh
      endmWh := endmWh
      usedmWh :=
        if jsTruthy startmWh && jsTruthy endmWh then
          some (max 0 (startmWh.getD 0 - endmWh.getD 0))
        else none
      durationMin := max 0 ((tQ lastEvent - tQ firstEvent) / 60)
      activeMinutes := acc.activeMinutes
      idleMinutes := acc.idleMinutes
      chargingMinutes := acc.chargingMinutes
      activeDrainPct := acc.activeDrainPct
      idleDrainPct := acc.idleDrainPct
      activeRate_pct_per_hr :=
        if acc.activeMinutes > 0 then acc.activeDrainPct / (acc.activeMinutes / 60) else 0
      idleRate_pct_per_hr :=
        if acc.idleMinutes > 0 then acc.idleDrainPct / (acc.idleMinutes / 60) else 0
      activeRate_mWh_per_hr :=
        if acc.activeMinutes > 0 ∧ acc.activeDrainmWh > 0 then
          some (acc.activeDrainmWh / (acc.activeMinutes / 60))
        else none
      idleRate_mWh_per_hr :=
        if acc.idleMinutes > 0 ∧ acc.idleDrainmWh > 0 then
          some (acc.idleDrainmWh / (acc.idleMinutes / 60))
        else none
      events := events
      isComplete := decide (endPct < startPct) }

/-! ### Summary and top-level entry (`calculateSummary`, `detectSessions`) -/

/-- Model of `SessionDetector.calculateSummary`: aggregate averages over the
complete sessions only. -/
def calculateSummary (sessions : List BatterySession) : Summary :=
  let completeSessions := sessions.filter (fun s => s.isComplete)
  if completeSessions.length = 0 then
    { totalSessions := 0, avgScreenOnTime := 0, avgActiveDrain := 0, avgIdleDrain := 0 }
  else
    let totalActiveMinutes := (completeSessions.map (fun s => s.activeMinutes)).sum
    let totalActiveDrain := (completeSessions.map (fun s => s.activeRate_pct_per_hr)).sum
    let totalIdleDrain := (completeSessions.map (fun s => s.idleRate_pct_per_hr)).sum
    { totalSessions := completeSessions.length
      avgScreenOnTime := (jsRound (totalActiveMinutes / completeSessions.length) : ℚ)
      avgActiveDrain := round2 (totalActiveDrain / completeSessions.length)
      avgIdleDrain := round2 (totalIdleDrain / completeSessions.length) }

/-- Model of `SessionDetector.createEmptyAnalysis`. -/
def createEmptyAnalysis (fullChargeThreshold : ℚ) : SessionAnalysis :=
  { sessions := []
    fullChargeEvents := []
    settings := { fullChargeThreshold := fullChargeThreshold }
    summary := { totalSessions := 0, avgScreenOnTime := 0, avgActiveDrain := 0,
                 avgIdleDrain := 0 } }

/-- Model of `SessionDetector.detectSessions` (the source defaults
`fullChargeThreshold` to 98; callers here always pass it). -/
def detectSessions (data : ParsedBatteryData) (fullChargeThreshold : ℚ) :
    SessionAnalysis :=
  let events := data.events
  if events.length = 0 then createEmptyAnalysis fullChargeThreshold
  else
    let fullChargeEvents := findFullChargeEvents events fullChargeThreshold
    let sessions := createSessions events fullChargeEvents
    let analyzedSessions := sessions.mapIdx fun index session =>
      analyzeSession session (index + 1)
    { sessions := analyzedSessions
      fullChargeEvents := fullChargeEvents
      settings := { fullChargeThreshold := fullChargeThreshold }
      summary := calculateSummary analyzedSessions }

/-! ### Derived and concrete-instance definitions used by the verification -/

/-- Input refuting C2 as stated: the second line is time-only and earlier
in the day than the first, dated, line. -/
def c2Input : String :=
  "2025-08-25 08:00:00\tActive\tBattery\t100 %" ++ "\n" ++ "07:00:00\tActive\tBattery\t95 %"

/-- The event parsed from the first line of `c2Input`. -/
def ev08 : BatteryEvent :=
  { timestamp := "2025-08-25 08:00:00", minutesOffset := 0, state := .Active,
    percent := 100, mWh := none, rawState := "Active" }

/-- The event parsed from the second (time-only) line of `c2Input`. -/
def ev07 : BatteryEvent :=
  { timestamp := "2025-08-25 07:00:00", minutesOffset := 0, state := .Active,
    percent := 95, mWh := none, rawState := "Active" }

/-- C2 witness input: a single well-formed dated line. -/
def oneLineInput : String := "2025-08-25 08:00:00\tActive\tBattery\t100 %"

/-- C6 witness input: a structurally fine line whose explicit date has
month 13, so the constructed timestamp fails to parse. -/
def c6Input : String := "2025-13-01 08:00:00\tActive\tBattery\t95 %"

/-- The session slice used to refute C8 as stated: only the first endpoint
carries an energy reading. -/
def c8Events : List BatteryEvent :=
  [{ timestamp := "2025-08-25 08:00:00", minutesOffset := 0, state := .Active,
     percent := 100, mWh := some 50000, rawState := "Active" },
   { timestamp := "2025-08-25 09:00:00", minutesOffset := 60, state := .Active,
     percent := 90, mWh := none, rawState := "Active" }]

/-- The session slice used as C8 witness input: both endpoints carry
non-zero energy readings. -/
def c8EventsFull : List BatteryEvent :=
  [{ timestamp := "2025-08-25 08:00:00", minutesOffset := 0, state := .Active,
     percent := 100, mWh := some 50000, rawState := "Active" },
   { timestamp := "2025-08-25 09:00:00", minutesOffset := 60, state := .Active,
     percent := 90, mWh := some 45000, rawState := "Active" }]

/-- Sessions used to instantiate C5 concretely: one complete and one
incomplete. -/
def sessionA : BatterySession :=
  { analyzeSession c8EventsFull 1 with
    isComplete := true
    activeMinutes := 60
    activeRate_pct_per_hr := 10
    idleRate_pct_per_hr := 0 }

/-- An incomplete session for the C5 witness. -/
def sessionB : BatterySession :=
  { analyzeSession c8EventsFull 2 with
    isComplete := false
    activeMinutes := 999
    activeRate_pct_per_hr := 999
    idleRate_pct_per_hr := 999 }

/-- The scan of `findFullChargeEvents` stopped after the first `n`
indices. -/
def fcScan (events : List BatteryEvent) (threshold : ℚ) (n : Nat) : List Nat :=
  (List.range n).foldl (findFCStep events threshold) []

/-- Integer-threshold form of the full-charge condition; every caller in
the repository passes an integral threshold, and this form evaluates by
kernel reduction. -/
def fullChargeCondInt (events : List BatteryEvent) (t : Int) (i : Nat) : Bool :=
  let event := events.getD i dummyEvent
  decide (event.percent ≥ t)
    || (event.state == .Charging && decide (event.percent ≥ t - 2))
    || (decide (0 < i) && decide ((events.getD (i - 1) dummyEvent).percent < t)
        && decide (event.percent ≥ t))

/-- The scan step on an integral threshold, in evaluable form. -/
def findFCStepInt (events : List BatteryEvent) (t : Int)
    (acc : List Nat) (i : Nat) : List Nat :=
  if fullChargeCondInt events t i &&
      (match acc.getLast? with
       | none => true
       | some lastFullCharge => decide (lastFullCharge + 5 < i)) then
    acc ++ [i]
  else acc

/-- The eight distinct events used to refute C1 as stated: full charges at
indices 0 and 6, discharging in between and after. -/
def cx1Events : List BatteryEvent :=
  [⟨"2025-08-25 00:00:00", 0, .Active, 100, none, "Active"⟩,
   ⟨"2025-08-25 01:00:00", 60, .Active, 90, none, "Active"⟩,
   ⟨"2025-08-25 02:00:00", 120, .Active, 80, none, "Active"⟩,
   ⟨"2025-08-25 03:00:00", 180, .Idle, 70, none, "Standby"⟩,
   ⟨"2025-08-25 04:00:00", 240, .Active, 60, none, "Active"⟩,
   ⟨"2025-08-25 05:00:00", 300, .Active, 50, none, "Active"⟩,
   ⟨"2025-08-25 06:00:00", 360, .Active, 100, none, "Active"⟩,
   ⟨"2025-08-25 07:00:00", 420, .Active, 90, none, "Active"⟩]

/-- The event at index 6 of `cx1Events` (the second full-charge
boundary). -/
def cx1Ev6 : BatteryEvent :=
  ⟨"2025-08-25 06:00:00", 360, .Active, 100, none, "Active"⟩

/-- The list `cx1Events` packaged as a parse result. -/
def cx1Data : ParsedBatteryData :=
  { events := cx1Events, startDate := none, errors := [],
    metadata := { totalEvents := 8, hasEnergyData := false,
                  timeRange := { start := "2025-08-25 00:00:00",
                                 stop := "2025-08-25 07:00:00" } } }

/-- Total bucketed minutes of a drain accumulator. -/
def bucketMin (acc : DrainAccum) : ℚ :=
  acc.activeMinutes + acc.idleMinutes + acc.chargingMinutes

/-- The interval assigned to one consecutive pair. -/
def pairDelta (p : BatteryEvent × BatteryEvent) : ℚ :=
  max 0 ((tQ p.2 - tQ p.1) / 60)

/-- The interval a pair contributes to the three buckets: nothing when the
left event's state is `Unknown`. -/
def pairContrib (p : BatteryEvent × BatteryEvent) : ℚ :=
  if p.1.state = .Unknown then 0 else pairDelta p

/-- First event of the C10 witness slice: an `Unknown` state followed by
a one-hour gap. -/
def c10e0 : BatteryEvent := ⟨"2025-08-25 00:00:00", 0, .Unknown, 100, none, "Mystery"⟩

/-- Second event of the C10 witness slice. -/
def c10e1 : BatteryEvent := ⟨"2025-08-25 01:00:00", 60, .Active, 90, none, "Active"⟩

/-- Third event of the C10 witness slice. -/
def c10e2 : BatteryEvent := ⟨"2025-08-25 02:00:00", 120, .Active, 80, none, "Active"⟩

/-- The C10 witness slice. -/
def c10Events : List BatteryEvent := [c10e0, c10e1, c10e2]

/-! ## General lemmas about the embedding -/

/-- Every successful `parseLine` result is built by the date-inference
cascade from some timestamp-regex match on the first token. -/
theorem parseLine_shape (line : String) (lastSeenDate previousDay : Option String)
    (today : String) (r : LineResult)
    (h : parseLine line lastSeenDate previousDay today = some r) :
    ∃ dateStr timeStr,
      r.event.timestamp = inferTimestamp dateStr timeStr lastSeenDate previousDay today ∧
      r.updatedDate = inferUpdatedDate dateStr lastSeenDate previousDay today := by
  simp only [parseLine] at h
  split at h
  · exact absurd h (by simp)
  · split at h
    · exact absurd h (by simp)
    · split at h
      · exact absurd h (by simp)
      · rename_i dateStr timeStr _
        split at h
        · exact absurd h (by simp)
        · refine ⟨dateStr, timeStr, ?_, ?_⟩ <;>
            simp only [← Option.some_inj.mp h]

/-- The sort comparator is transitive. -/
theorem eventLe_trans (a b c : BatteryEvent) (h1 : eventLe a b) (h2 : eventLe b c) :
    eventLe a c := by
  simp only [eventLe, decide_eq_true_eq] at *
  omega

/-- The sort comparator is total. -/
theorem eventLe_total (a b : BatteryEvent) : eventLe a b || eventLe b a := by
  simp only [eventLe, Bool.or_eq_true, decide_eq_true_eq]
  omega

/-- The final sort of `parseText` produces a sequence pairwise
non-decreasing in parsed timestamp. -/
theorem sortEvents_pairwise (l : List BatteryEvent) :
    (sortEvents l).Pairwise (fun a b =>
      (jsGetTime a.timestamp).getD 0 ≤ (jsGetTime b.timestamp).getD 0) := by
  have h := @List.sorted_mergeSort _ eventLe
    (fun a b c => eventLe_trans a b c) (fun a b => eventLe_total a b) l
  exact h.imp (fun hab => by simpa [eventLe] using hab)

/-- Sorting a two-element list, in closed form. -/
theorem sortEvents_pair (a b : BatteryEvent) :
    sortEvents [a, b] = if eventLe a b then [a, b] else [b, a] := by
  simp only [sortEvents, List.mergeSort, List.merge]
  split <;> rename_i h <;> simp [List.merge, h]

/-- The first-parsed event receives minute offset 0. -/
theorem assignOffsets_mem_zero (e0 : BatteryEvent) (rest : List BatteryEvent) :
    ∃ e ∈ assignOffsets (e0 :: rest), e.minutesOffset = 0 := by
  simp only [assignOffsets]
  refine ⟨_, List.mem_map_of_mem _ (List.mem_cons_self e0 rest), ?_⟩
  simp [jsRound]
  norm_num

/-! ## Claim theorems -/

/-- C7: parsing empty input text yields exactly the empty
`ParsedBatteryData` (no events, no errors, zeroed metadata with empty time
range), and `detectSessions` applied to that result, for any threshold,
returns an analysis with zero sessions, empty `fullChargeEvents`, all-zero
summary, and the given threshold preserved in
`settings.fullChargeThreshold`. -/
theorem c7_empty_input (today : String) (threshold : ℚ) :
    parseText "" today =
      { events := [], startDate := none, errors := [],
        metadata := { totalEvents := 0, hasEnergyData := false,
                      timeRange := { start := "", stop := "" } } } ∧
    detectSessions (parseText "" today) threshold =
      { sessions := [], fullChargeEvents := [],
        settings := { fullChargeThreshold := threshold },
        summary := { totalSessions := 0, avgScreenOnTime := 0,
                     avgActiveDrain := 0, avgIdleDrain := 0 } } := by
  have hs : parseState "" today =
      { idx := 1, lastSeenDate := none, startDate := none, events := [], errors := [] } :=
    rfl
  have hp : parseText "" today =
      { events := [], startDate := none, errors := [],
        metadata := { totalEvents := 0, hasEnergyData := false,
                      timeRange := { start := "", stop := "" } } } := by
    simp [parseText, hs, assignOffsets, sortEvents]
  exact ⟨hp, by rw [hp]; rfl⟩

/-- C9: a time-only line (one whose first token matched the timestamp
regex without the calendar-date group, so that `updatedDate` is not set)
parsed while a `lastSeenDate` exists resolves to that most recently seen
date: its event's timestamp is that date followed by the matched time. -/
theorem c9_time_only_uses_last_seen_date (line : String) (d today : String)
    (previousDay : Option String) (r : LineResult)
    (hres : parseLine line (some d) previousDay today = some r)
    (hnodate : r.updatedDate = none) :
    ∃ t, r.event.timestamp = d ++ " " ++ t := by
  obtain ⟨dateStr, timeStr, hts, hud⟩ :=
    parseLine_shape line (some d) previousDay today r hres
  cases dateStr with
  | some dc => rw [hud] at hnodate; exact absurd hnodate (by simp [inferUpdatedDate])
  | none => exact ⟨String.mk timeStr, by rw [hts]; rfl⟩

/-- C9 witness: the concrete time-only line `"08:30:00\tActive\t95 %"`
parsed after a line dated `2025-08-25` produces an event dated
`2025-08-25`. -/
theorem c9_witness :
    ∃ t, ((parseLine "08:30:00\tActive\t95 %" (some "2025-08-25") none
            "2025-01-01").getD ⟨dummyEvent, none⟩).event.timestamp = "2025-08-25" ++ " " ++ t :=
  c9_time_only_uses_last_seen_date "08:30:00\tActive\t95 %" "2025-08-25" "2025-01-01"
    none _ (by rfl) (by rfl)

/-- C3: for every input text (and wall-clock fallback date), the events
sequence of the `ParsedBatteryData` returned by `parseText` is sorted
non-decreasing by absolute timestamp, the instant obtained by parsing each
event's timestamp string. -/
theorem c3_events_sorted_by_timestamp (text today : String) :
    (parseText text today).events.Pairwise
      (fun a b => (jsGetTime a.timestamp).getD 0 ≤ (jsGetTime b.timestamp).getD 0) := by
  simp only [parseText]
  exact sortEvents_pairwise _

/-- C2 (amended): when the parse yields at least one event, the event that
was parsed first has `minutesOffset = 0`, so some event of the returned
(sorted) sequence has `minutesOffset = 0`; the event at position 0 of the
returned sequence, however, need not (offsets are computed in parse order
before the final sort). -/
theorem c2_amended_offset_zero_exists (text today : String)
    (h : (parseText text today).events ≠ []) :
    ∃ e ∈ (parseText text today).events, e.minutesOffset = 0 := by
  simp only [parseText] at *
  match hm : (parseState text today).events with
  | [] => rw [hm] at h; simp [assignOffsets, sortEvents] at h
  | e0 :: rest =>
    obtain ⟨e, he, h0⟩ := assignOffsets_mem_zero e0 rest
    refine ⟨e, ?_, h0⟩
    show e ∈ (assignOffsets (e0 :: rest)).mergeSort eventLe
    exact ((List.mergeSort_perm _ eventLe).mem_iff).mpr he

/-- C2 counterexample: on `c2Input` the parse yields events, yet the first
event of the returned sequence has `minutesOffset = -60`, not 0 — the
offsets were computed against parse order and the final sort moved the
time-only event to the front. -/
theorem c2_counterexample :
    (parseText c2Input "2025-01-01").events ≠ [] ∧
    ((parseText c2Input "2025-01-01").events.headD dummyEvent).minutesOffset = -60 := by
  have hev : (parseText c2Input "2025-01-01").events =
      [{ ev07 with minutesOffset := -60 }, ev08] := by
    simp only [parseText]
    rw [show (parseState c2Input "2025-01-01").events = [ev08, ev07] from by decide]
    rw [show assignOffsets [ev08, ev07] =
          [ev08, { ev07 with minutesOffset := -60 }] from by
        have hT8 : jsGetTime "2025-08-25 08:00:00" = some 63923328000 := by decide
        have hT7 : jsGetTime "2025-08-25 07:00:00" = some 63923324400 := by decide
        simp only [assignOffsets, List.map, ev08, ev07, hT8, hT7, Option.getD_some]
        norm_num [jsRound]]
    rw [sortEvents_pair, if_neg (by decide)]
  rw [hev]
  exact ⟨by simp, rfl⟩

/-- C2 witness: on a concrete one-line input the parse is non-empty and
some returned event carries `minutesOffset = 0`. -/
theorem c2_witness :
    ∃ e ∈ (parseText oneLineInput "2025-01-01").events, e.minutesOffset = 0 := by
  apply c2_amended_offset_zero_exists
  simp only [parseText]
  rw [show (parseState oneLineInput "2025-01-01").events = [ev08] from by decide]
  intro hcon
  have hlen := congrArg List.length hcon
  simp [sortEvents, assignOffsets] at hlen

/-- The invariant of the `parseText` line loop needed for C6: collected
events all carry a parseable timestamp, and every collected error is an
invalid-timestamp diagnostic of the documented shape, recording a
timestamp that indeed fails to parse. -/
theorem foldl_processLine_inv (today : String) (previousDay : Option String)
    (lines : List (List Char)) (st : PState)
    (he : ∀ e ∈ st.events, (jsGetTime e.timestamp).isSome)
    (hr : ∀ s ∈ st.errors, ∃ (n : Nat) (ts : String),
      s = "Line " ++ toString n ++ ": Invalid timestamp: " ++ ts ∧ jsGetTime ts = none) :
    (∀ e ∈ (lines.foldl (processLine today previousDay) st).events,
      (jsGetTime e.timestamp).isSome) ∧
    (∀ s ∈ (lines.foldl (processLine today previousDay) st).errors, ∃ (n : Nat) (ts : String),
      s = "Line " ++ toString n ++ ": Invalid timestamp: " ++ ts ∧ jsGetTime ts = none) := by
  induction lines generalizing st with
  | nil => exact ⟨he, hr⟩
  | cons line rest ih =>
    simp only [List.foldl_cons]
    apply ih
    · intro e hmem
      simp only [processLine] at hmem
      split at hmem
      · exact he e hmem
      · rename_i r _
        split at hmem
        · exact he e hmem
        · rename_i t ht
          simp only [List.mem_append, List.mem_singleton] at hmem
          rcases hmem with hmem | rfl
          · exact he e hmem
          · simp [ht]
    · intro s hmem
      simp only [processLine] at hmem
      split at hmem
      · exact hr s hmem
      · rename_i r _
        split at hmem
        · rename_i hnone
          simp only [List.mem_append, List.mem_singleton] at hmem
          rcases hmem with hmem | rfl
          · exact hr s hmem
          · exact ⟨st.idx, r.event.timestamp, rfl, hnone⟩
        · exact hr s hmem

/-- C6: `parseText` is total on every input (the embedding is a function;
the only per-line failure the source can raise is the invalid-timestamp
check, whose event is excluded and recorded).  Every recorded error is
exactly `"Line <n>: Invalid timestamp: <value>"` for a timestamp value
that fails to parse, and every returned event has a parseable
timestamp. -/
theorem c6_errors_shape (text today : String) :
    (∀ s ∈ (parseText text today).errors, ∃ (n : Nat) (ts : String),
      s = "Line " ++ toString n ++ ": Invalid timestamp: " ++ ts ∧ jsGetTime ts = none) ∧
    (∀ e ∈ (parseText text today).events, (jsGetTime e.timestamp).isSome) := by
  have hinv := foldl_processLine_inv today ((firstFullDate (linesOf text)).map prevDayStr)
    (linesOf text)
    { idx := 1, lastSeenDate := none, startDate := none, events := [], errors := [] }
    (by intro e h; simp at h) (by intro s h; simp at h)
  constructor
  · exact hinv.2
  · intro e hmem
    simp only [parseText] at hmem
    have hmem2 : e ∈ assignOffsets (parseState text today).events :=
      ((List.mergeSort_perm _ eventLe).mem_iff).mp hmem
    match hm : (parseState text today).events, hmem2 with
    | e0 :: rest, hmem2 =>
      simp only [assignOffsets] at hmem2
      obtain ⟨e', he', rfl⟩ := List.mem_map.mp hmem2
      have : e' ∈ (parseState text today).events := by rw [hm]; exact he'
      exact hinv.1 e' this

/-- C6 witness: on `c6Input` the single recorded error has the documented
shape, with a timestamp value that indeed fails to parse. -/
theorem c6_witness :
    ("Line 1: Invalid timestamp: 2025-13-01 08:00:00" : String) ∈
      (parseText c6Input "2025-01-01").errors ∧
    ∃ (n : Nat) (ts : String), ("Line 1: Invalid timestamp: 2025-13-01 08:00:00" : String) =
      "Line " ++ toString n ++ ": Invalid timestamp: " ++ ts ∧ jsGetTime ts = none := by
  have hmem : ("Line 1: Invalid timestamp: 2025-13-01 08:00:00" : String) ∈
      (parseText c6Input "2025-01-01").errors := by
    show _ ∈ (parseState c6Input "2025-01-01").errors
    rw [show (parseState c6Input "2025-01-01").errors =
        ["Line 1: Invalid timestamp: 2025-13-01 08:00:00"] from by decide]
    exact List.mem_singleton.mpr rfl
  exact ⟨hmem, (c6_errors_shape c6Input "2025-01-01").1 _ hmem⟩

/-- C8 (amended): for every session produced by `analyzeSession` on a
non-empty slice, `startmWh` is present iff the first event carries an mWh
reading and `endmWh` iff the last event does (each endpoint independently);
`usedmWh` is present iff both endpoint readings are present and non-zero
(JavaScript truthiness of `startmWh && endmWh`), and it then equals
`max 0 (startmWh - endmWh)`. -/
theorem c8_amended_energy_fields (events : List BatteryEvent) (sessionId : Nat)
    (h : events ≠ []) :
    ((analyzeSession events sessionId).startmWh.isSome ↔
      (events.headD dummyEvent).mWh.isSome) ∧
    ((analyzeSession events sessionId).endmWh.isSome ↔
      (events.getLastD dummyEvent).mWh.isSome) ∧
    ((analyzeSession events sessionId).usedmWh.isSome ↔
      (jsTruthy (analyzeSession events sessionId).startmWh ∧
        jsTruthy (analyzeSession events sessionId).endmWh)) ∧
    (∀ u, (analyzeSession events sessionId).usedmWh = some u →
      ∃ a b, (analyzeSession events sessionId).startmWh = some a ∧
        (analyzeSession events sessionId).endmWh = some b ∧ u = max 0 (a - b)) := by
  match events, h with
  | e0 :: rest, _ =>
    have hs : (analyzeSession (e0 :: rest) sessionId).startmWh = e0.mWh := rfl
    have hend : (analyzeSession (e0 :: rest) sessionId).endmWh =
        ((e0 :: rest).getLastD dummyEvent).mWh := rfl
    have hu : (analyzeSession (e0 :: rest) sessionId).usedmWh =
        (if jsTruthy e0.mWh && jsTruthy ((e0 :: rest).getLastD dummyEvent).mWh then
          some (max 0 (e0.mWh.getD 0 - ((e0 :: rest).getLastD dummyEvent).mWh.getD 0))
        else none) := rfl
    rw [hs, hend, hu]
    refine ⟨Iff.rfl, Iff.rfl, ?_, ?_⟩
    · split
      · rename_i hc
        simp only [Bool.and_eq_true] at hc
        simp [← List.getLastD_eq_getLast?, hc.1, hc.2]
      · rename_i hc
        simp only [Bool.and_eq_true] at hc
        simp only [Option.isSome_none, Bool.false_eq_true, false_iff]
        intro hcon
        exact hc ⟨hcon.1, hcon.2⟩
    · intro u husome
      split at husome
      · rename_i hc
        simp only [Bool.and_eq_true] at hc
        obtain ⟨h1, h2⟩ := hc
        match hm1 : e0.mWh, hm2 : ((e0 :: rest).getLastD dummyEvent).mWh with
        | some a, some b =>
          refine ⟨a, b, rfl, rfl, ?_⟩
          rw [hm1, hm2] at husome
          simpa using husome.symm
        | none, _ => rw [hm1] at h1; simp [jsTruthy] at h1
        | some a, none => rw [hm2] at h2; simp [jsTruthy] at h2
      · exact absurd husome (by simp)

/-- C8 counterexample: on `c8Events` the session's `startmWh` is present
although the last event of the slice carries no mWh reading, refuting
"startmWh, endmWh and usedmWh are present iff both endpoints carry an mWh
reading". -/
theorem c8_counterexample :
    (analyzeSession c8Events 1).startmWh.isSome = true ∧
    (c8Events.getLastD dummyEvent).mWh.isSome = false := by
  constructor <;> rfl

/-- C8 witness: the amended theorem instantiated on `c8EventsFull`, whose
non-emptiness hypothesis is discharged concretely. -/
theorem c8_witness :
    ((analyzeSession c8EventsFull 1).usedmWh.isSome ↔
      (jsTruthy (analyzeSession c8EventsFull 1).startmWh ∧
        jsTruthy (analyzeSession c8EventsFull 1).endmWh)) ∧
    (analyzeSession c8EventsFull 1).usedmWh = some 5000 :=
  ⟨(c8_amended_energy_fields c8EventsFull 1 (by simp [c8EventsFull])).2.2.1, rfl⟩

/-- C5: the summary is computed only over sessions with `isComplete = true`
(incomplete sessions can be removed anywhere without changing it); when no
session is complete all four fields are 0; otherwise `totalSessions` is
the number of complete sessions, `avgScreenOnTime` the rounded mean of
their `activeMinutes`, and `avgActiveDrain` / `avgIdleDrain` the means of
the per-session hourly rates rounded to 2 decimal places — a mean of
rates, not a pooled rate. -/
theorem c5_summary_complete_only (sessions : List BatterySession) :
    (∀ s l₁ l₂, s.isComplete = false → sessions = l₁ ++ s :: l₂ →
      calculateSummary sessions = calculateSummary (l₁ ++ l₂)) ∧
    (sessions.filter (fun s => s.isComplete) = [] →
      calculateSummary sessions =
        { totalSessions := 0, avgScreenOnTime := 0, avgActiveDrain := 0,
          avgIdleDrain := 0 }) ∧
    (sessions.filter (fun s => s.isComplete) ≠ [] →
      calculateSummary sessions =
        { totalSessions := (sessions.filter (fun s => s.isComplete)).length
          avgScreenOnTime := (jsRound
            (((sessions.filter (fun s => s.isComplete)).map
                (fun s => s.activeMinutes)).sum /
              (sessions.filter (fun s => s.isComplete)).length) : ℚ)
          avgActiveDrain := round2
            (((sessions.filter (fun s => s.isComplete)).map
                (fun s => s.activeRate_pct_per_hr)).sum /
              (sessions.filter (fun s => s.isComplete)).length)
          avgIdleDrain := round2
            (((sessions.filter (fun s => s.isComplete)).map
                (fun s => s.idleRate_pct_per_hr)).sum /
              (sessions.filter (fun s => s.isComplete)).length) }) := by
  refine ⟨?_, ?_, ?_⟩
  · rintro s l₁ l₂ hinc rfl
    simp only [calculateSummary, List.filter_append, List.filter_cons, hinc]
    simp
  · intro hnone
    simp [calculateSummary, hnone]
  · intro hsome
    have hlen : (sessions.filter (fun s => s.isComplete)).length ≠ 0 := by
      simpa [List.length_eq_zero] using hsome
    simp only [calculateSummary, if_neg hlen]

/-- C5 witness: the theorem instantiated on `[sessionA, sessionB]`, all
hypotheses discharged concretely; the incomplete session is ignored and
the averages evaluate as claimed. -/
theorem c5_witness :
    calculateSummary [sessionA, sessionB] = calculateSummary [sessionA] ∧
    calculateSummary [sessionA, sessionB] =
      { totalSessions := 1, avgScreenOnTime := 60, avgActiveDrain := 10,
        avgIdleDrain := 0 } := by
  have h1 := ((c5_summary_complete_only [sessionA, sessionB]).1 sessionB [sessionA] []
    (by rfl) rfl)
  have hfilter : ([sessionA, sessionB].filter (fun s => s.isComplete)) = [sessionA] := by
    simp [List.filter, sessionA, sessionB]
  have h2 := (c5_summary_complete_only [sessionA, sessionB]).2.2 (by rw [hfilter]; simp)
  rw [hfilter] at h2
  refine ⟨h1, ?_⟩
  rw [h2]
  have hA1 : sessionA.activeMinutes = 60 := rfl
  have hA2 : sessionA.activeRate_pct_per_hr = 10 := rfl
  have hA3 : sessionA.idleRate_pct_per_hr = 0 := rfl
  simp only [List.map, List.sum_cons, List.sum_nil, List.length_cons, List.length_nil,
    hA1, hA2, hA3]
  norm_num [jsRound, round2]

/-! ### The boundary-scan invariant (for C4 and C1) -/

/-- One more scanned index is one more step. -/
theorem fcScan_succ (events : List BatteryEvent) (threshold : ℚ) (n : Nat) :
    fcScan events threshold (n + 1) =
      findFCStep events threshold (fcScan events threshold n) n := by
  simp [fcScan, List.range_succ]

/-- In a list whose consecutive elements are more than 5 apart, every
element is the last one or more than 5 below it. -/
theorem chain'_rel_getLast (A : List Nat) (last : Nat)
    (hch : A.Chain' (fun a b => a + 5 < b)) (hA : A.getLast? = some last) :
    ∀ j ∈ A, j = last ∨ j + 5 < last := by
  induction A with
  | nil => simp at hA
  | cons a rest ih =>
    match rest, hch, hA with
    | [], _, hA =>
      intro j hj
      simp only [List.getLast?_singleton, Option.some_inj] at hA
      simp only [List.mem_singleton] at hj
      subst hA
      exact Or.inl hj
    | b :: rest2, hch, hA =>
      intro j hj
      have hA2 : (b :: rest2).getLast? = some last := by
        simpa [List.getLast?_cons_cons] using hA
      have hch2 : (b :: rest2).Chain' (fun a b => a + 5 < b) := hch.tail
      have hab : a + 5 < b := List.chain'_cons.mp hch |>.1
      rcases List.mem_cons.mp hj with rfl | hj2
      · rcases ih hch2 hA2 b (List.mem_cons_self b rest2) with rfl | hblast
        · exact Or.inr hab
        · exact Or.inr (by omega)
      · exact ih hch2 hA2 j hj2

/-- The duplicate-suppression test of the scan succeeds exactly when every
recorded boundary is more than 5 positions back. -/
theorem fcGap_iff (A : List Nat) (n : Nat)
    (hch : A.Chain' (fun a b => a + 5 < b)) :
    ((match A.getLast? with
      | none => true
      | some lastFullCharge => decide (lastFullCharge + 5 < n)) = true) ↔
    ∀ j ∈ A, j + 5 < n := by
  match hA : A.getLast? with
  | none =>
    have : A = [] := List.getLast?_eq_none_iff.mp hA
    simp [this]
  | some last =>
    simp only [decide_eq_true_eq]
    constructor
    · intro hlt j hj
      rcases chain'_rel_getLast A last hch hA j hj with rfl | hjl
      · exact hlt
      · omega
    · intro hall
      exact hall last (List.mem_of_mem_getLast? hA)

/-- The scan invariant: after scanning the first `n` indices, the recorded
boundaries are below `n`, consecutive recorded boundaries are more than 5
apart, and an index is recorded exactly when its full-charge condition
holds and every earlier recorded boundary is more than 5 positions
back. -/
theorem fcScan_inv (events : List BatteryEvent) (threshold : ℚ) (n : Nat) :
    (∀ j ∈ fcScan events threshold n, j < n) ∧
    (fcScan events threshold n).Chain' (fun a b => a + 5 < b) ∧
    (∀ k, k ∈ fcScan events threshold n ↔
      (k < n ∧ fullChargeCond events threshold k = true ∧
        ∀ j ∈ fcScan events threshold n, j < k → j + 5 < k)) := by
  induction n with
  | zero =>
    refine ⟨by simp [fcScan], by simp [fcScan], ?_⟩
    intro k
    simp [fcScan]
  | succ n ih =>
    obtain ⟨ih1, ih2, ih3⟩ := ih
    rw [fcScan_succ]
    set A := fcScan events threshold n with hA
    by_cases hpush : (fullChargeCond events threshold n &&
        (match A.getLast? with
         | none => true
         | some lastFullCharge => decide (lastFullCharge + 5 < n))) = true
    · have hsplit := hpush
      rw [Bool.and_eq_true] at hsplit
      have hcond : fullChargeCond events threshold n = true := hsplit.1
      have hgap : ∀ j ∈ A, j + 5 < n := (fcGap_iff A n ih2).mp hsplit.2
      simp only [findFCStep, if_pos hpush]
      refine ⟨?_, ?_, ?_⟩
      · intro j hj
        rcases List.mem_append.mp hj with hj | hj
        · exact Nat.lt_succ_of_lt (ih1 j hj)
        · simp only [List.mem_singleton] at hj; omega
      · refine List.Chain'.append ih2 (List.chain'_singleton n) ?_
        intro x hx y hy
        simp only [List.head?_cons, Option.mem_def, Option.some_inj] at hy
        subst hy
        exact hgap x (List.mem_of_mem_getLast? hx)
      · intro k
        constructor
        · intro hk
          rcases List.mem_append.mp hk with hkA | hkn
          · obtain ⟨hklt, hkcond, hkgap⟩ := (ih3 k).mp hkA
            refine ⟨by omega, hkcond, ?_⟩
            intro j hj hjk
            rcases List.mem_append.mp hj with hjA | hjn
            · exact hkgap j hjA hjk
            · simp only [List.mem_singleton] at hjn; omega
          · simp only [List.mem_singleton] at hkn
            subst hkn
            refine ⟨by omega, hcond, ?_⟩
            intro j hj hjk
            rcases List.mem_append.mp hj with hjA | hjn
            · exact hgap j hjA
            · simp only [List.mem_singleton] at hjn; omega
        · rintro ⟨hklt, hkcond, hkgap⟩
          by_cases hkn : k = n
          · subst hkn
            exact List.mem_append_right _ (by simp)
          · have hkltn : k < n := by omega
            apply List.mem_append_left
            apply (ih3 k).mpr
            refine ⟨hkltn, hkcond, ?_⟩
            intro j hjA hjk
            exact hkgap j (List.mem_append_left _ hjA) hjk
    · simp only [findFCStep, if_neg hpush]
      refine ⟨?_, ih2, ?_⟩
      · intro j hj
        exact Nat.lt_succ_of_lt (ih1 j hj)
      · intro k
        constructor
        · intro hk
          obtain ⟨hklt, hkcond, hkgap⟩ := (ih3 k).mp hk
          exact ⟨by omega, hkcond, hkgap⟩
        · rintro ⟨hklt, hkcond, hkgap⟩
          by_cases hkn : k = n
          · subst hkn
            exfalso
            apply hpush
            rw [Bool.and_eq_true]
            refine ⟨hkcond, (fcGap_iff A k ih2).mpr ?_⟩
            intro j hjA
            exact hkgap j hjA (ih1 j hjA)
          · exact (ih3 k).mpr ⟨by omega, hkcond, hkgap⟩

/-- The Bool full-charge condition, in propositional form over the
in-bounds events. -/
theorem fullChargeCond_iff (events : List BatteryEvent) (threshold : ℚ) (i : Nat)
    (h : i < events.length) :
    fullChargeCond events threshold i = true ↔
      ((events[i].percent : ℚ) ≥ threshold ∨
       (events[i].state = .Charging ∧ (events[i].percent : ℚ) ≥ threshold - 2) ∨
       (0 < i ∧ ((events[i - 1]).percent : ℚ) < threshold ∧
         (events[i].percent : ℚ) ≥ threshold)) := by
  have hd : events.getD i dummyEvent = events[i] := List.getD_eq_getElem events dummyEvent h
  have hd1 : events.getD (i - 1) dummyEvent = events[i - 1] :=
    List.getD_eq_getElem events dummyEvent (by omega)
  simp only [fullChargeCond, hd, hd1, Bool.or_eq_true, Bool.and_eq_true,
    decide_eq_true_eq, beq_iff_eq]
  tauto

/-- On an integral threshold the rational condition agrees with its
integer form. -/
theorem fullChargeCond_intCast (events : List BatteryEvent) (t : Int) (i : Nat) :
    fullChargeCond events (t : ℚ) i = fullChargeCondInt events t i := by
  rw [Bool.eq_iff_iff]
  simp only [fullChargeCond, fullChargeCondInt, Bool.or_eq_true, Bool.and_eq_true,
    decide_eq_true_eq, beq_iff_eq]
  norm_cast

/-- On an integral threshold the whole scan agrees with its evaluable
integer form. -/
theorem findFullChargeEvents_intCast (events : List BatteryEvent) (t : Int) :
    findFullChargeEvents events (t : ℚ) =
      (List.range events.length).foldl (findFCStepInt events t) [] := by
  refine List.foldl_ext _ _ [] ?_
  intro acc i _
  simp only [findFCStep, findFCStepInt, fullChargeCond_intCast]

/-- C4: index `i` is recorded in `fullChargeEvents` iff one of the three
full-charge conditions holds at `i` — `percent ≥ threshold`; or state
`Charging` with `percent ≥ threshold - 2`; or an upward crossing of the
threshold from the previous event — and no other recorded boundary lies
within 5 index positions before `i`. -/
theorem c4_full_charge_characterization (events : List BatteryEvent)
    (threshold : ℚ) (i : Nat) (h : i < events.length) :
    i ∈ findFullChargeEvents events threshold ↔
      (((events[i].percent : ℚ) ≥ threshold ∨
        (events[i].state = .Charging ∧ (events[i].percent : ℚ) ≥ threshold - 2) ∨
        (0 < i ∧ ((events[i - 1]).percent : ℚ) < threshold ∧
          (events[i].percent : ℚ) ≥ threshold)) ∧
       ∀ j ∈ findFullChargeEvents events threshold, j < i → 5 < i - j) := by
  have hchar := (fcScan_inv events threshold events.length).2.2 i
  have heq : findFullChargeEvents events threshold =
      fcScan events threshold events.length := rfl
  rw [heq, hchar]
  constructor
  · rintro ⟨_, hcond, hgap⟩
    refine ⟨(fullChargeCond_iff events threshold i h).mp hcond, ?_⟩
    intro j hj hji
    have := hgap j hj hji
    omega
  · rintro ⟨hcond, hgap⟩
    refine ⟨h, (fullChargeCond_iff events threshold i h).mpr hcond, ?_⟩
    intro j hj hji
    have := hgap j hj hji
    omega

/-! ### Session carving facts (for C1) -/

/-- The function `analyzeSession` returns exactly its input slice in `events`. -/
theorem analyzeSession_events (events : List BatteryEvent) (sessionId : Nat) :
    (analyzeSession events sessionId).events = events := by
  cases events <;> rfl

/-- Counting an event in the analyzed sessions is counting it in the raw
slices. -/
theorem mapIdx_analyze_count (l : List (List BatteryEvent)) (e : BatteryEvent) :
    ((l.mapIdx fun index session => analyzeSession session (index + 1)).map
      (fun s => s.events.count e)) = l.map (fun sl => sl.count e) := by
  rw [List.mapIdx_eq_enum_map, List.map_map]
  have h1 : ((fun s : BatterySession => s.events.count e) ∘
      Function.uncurry fun index session => analyzeSession session (index + 1)) =
      (fun p : Nat × List BatteryEvent => p.2.count e) := by
    funext p
    simp [Function.uncurry, analyzeSession_events]
  rw [h1]
  have h2 : (fun p : Nat × List BatteryEvent => p.2.count e) =
      (fun sl : List BatteryEvent => sl.count e) ∘ Prod.snd := rfl
  rw [h2, ← List.map_map, List.enum_map_snd]

/-- The discharge-start adjustment never moves before the session start. -/
theorem dischargeStart_ge (events : List BatteryEvent) (s e : Nat) :
    s ≤ dischargeStart events s e := by
  unfold dischargeStart
  split
  · rename_i j hf
    have hmem := List.mem_of_find?_eq_some hf
    rw [List.mem_range'] at hmem
    obtain ⟨m, _, rfl⟩ := hmem
    omega
  · exact Nat.le_refl s

/-- Membership in a slice pins the member to an in-range index of the
underlying list. -/
theorem mem_jsSlice (l : List BatteryEvent) (a b : Nat) (x : BatteryEvent)
    (hx : x ∈ jsSlice l a b) :
    ∃ k, a ≤ k ∧ k < b ∧ l[k]? = some x := by
  unfold jsSlice at hx
  obtain ⟨m, hm, hget⟩ := List.mem_iff_getElem.mp hx
  rw [List.getElem_take, List.getElem_drop] at hget
  simp only [List.length_take, List.length_drop, lt_min_iff] at hm
  exact ⟨a + m, by omega, by omega,
    List.getElem?_eq_some.mpr ⟨by omega, hget⟩⟩

/-- A slice is a sublist of the underlying list. -/
theorem jsSlice_sublist (l : List BatteryEvent) (a b : Nat) :
    (jsSlice l a b).Sublist l :=
  ((l.drop a).take_sublist (b - a)).trans (l.drop_sublist a)

/-- Summing a [0,1]-valued function over an index range in which all
indices below `m` vanish gives at most the value at `m`. -/
theorem sum_range_le_of_prefix_zero (c : Nat → Nat) (n : Nat)
    (h1 : ∀ i, c i ≤ 1) (h0 : ∀ i, i + 1 < n → c i = 0) :
    ((List.range n).map c).sum ≤ 1 := by
  induction n with
  | zero => simp
  | succ m ih =>
    rw [List.range_succ, List.map_append, List.sum_append]
    have hpre : ((List.range m).map c).sum = 0 := by
      have : ∀ x ∈ (List.range m).map c, x = 0 := by
        intro x hx
        obtain ⟨i, hi, rfl⟩ := List.mem_map.mp hx
        exact h0 i (by simpa using Nat.add_lt_add_right (List.mem_range.mp hi) 1)
      exact List.sum_eq_zero this
    simp [hpre, h1 m]

/-- A [0,1]-valued function whose nonzero positions below `n` are always
adjacent sums to at most 2 over `range n`. -/
theorem sum_range_le_two (c : Nat → Nat) (n : Nat) (h1 : ∀ i, c i ≤ 1)
    (h2 : ∀ i j, i < j → j < n → 0 < c i → 0 < c j → j = i + 1) :
    ((List.range n).map c).sum ≤ 2 := by
  induction n with
  | zero => simp
  | succ m ih =>
    rw [List.range_succ, List.map_append, List.sum_append]
    by_cases hcm : c m = 0
    · have := ih (fun i j hij hj => h2 i j hij (by omega))
      simp [hcm]
      omega
    · have hpre : ((List.range m).map c).sum ≤ 1 := by
        apply sum_range_le_of_prefix_zero c m h1
        intro i hi
        by_contra hci
        have := h2 i m (by omega) (by omega) (by omega) (by omega)
        omega
      simp only [List.map_cons, List.sum_cons, List.map_nil, List.sum_nil]
      have := h1 m
      omega

/-- A positive sum over a range exhibits a nonzero position. -/
theorem sum_range_pos_exists (c : Nat → Nat) (n : Nat)
    (h : 0 < ((List.range n).map c).sum) : ∃ i, i < n ∧ 0 < c i := by
  by_contra hcon
  push_neg at hcon
  have : ∀ x ∈ (List.range n).map c, x = 0 := by
    intro x hx
    obtain ⟨i, hi, rfl⟩ := List.mem_map.mp hx
    exact Nat.le_zero.mp (hcon i (List.mem_range.mp hi))
  rw [List.sum_eq_zero this] at h
  omega

/-- A sum of at least 2 over a range of a [0,1]-valued function exhibits
two distinct nonzero positions. -/
theorem sum_range_two_exists (c : Nat → Nat) (n : Nat) (h1 : ∀ i, c i ≤ 1)
    (hsum : 2 ≤ ((List.range n).map c).sum) :
    ∃ i j, i < j ∧ j < n ∧ 0 < c i ∧ 0 < c j := by
  induction n with
  | zero => simp at hsum
  | succ m ih =>
    rw [List.range_succ, List.map_append, List.sum_append] at hsum
    by_cases hcm : c m = 0
    · obtain ⟨i, j, hij, hj, hci, hcj⟩ := ih (by simpa [hcm] using hsum)
      exact ⟨i, j, hij, by omega, hci, hcj⟩
    · have hm1 := h1 m
      simp only [List.map_cons, List.sum_cons, List.map_nil, List.sum_nil] at hsum
      have hpre : 0 < ((List.range m).map c).sum := by omega
      obtain ⟨i, hi, hci⟩ := sum_range_pos_exists c m hpre
      exact ⟨i, m, hi, by omega, hci, by omega⟩

/-- The central interval argument for C1: over a duplicate-free event
list, a given event occurs in at most two of the carved slices, and when
it occurs in two it sits at a recorded full-charge boundary (the slice for
boundary `i` extends through boundary `i+1` inclusive, which is where the
next slice begins). -/
theorem createSessions_count (events : List BatteryEvent) (threshold : ℚ)
    (hnd : events.Nodup) (e : BatteryEvent) :
    ((createSessions events (findFullChargeEvents events threshold)).map
      (fun sl => sl.count e)).sum ≤ 2 ∧
    (2 ≤ ((createSessions events (findFullChargeEvents events threshold)).map
        (fun sl => sl.count e)).sum →
      ∃ i ∈ findFullChargeEvents events threshold, events[i]? = some e) := by
  set F := findFullChargeEvents events threshold with hF
  have hcnt := List.nodup_iff_count_le_one.mp hnd e
  by_cases hFe : F.isEmpty
  · have hone : createSessions events F = [events] := by
      simp [createSessions, hFe]
    rw [hone]
    refine ⟨by simpa using le_trans hcnt (by omega), ?_⟩
    intro h2
    simp only [List.map_cons, List.map_nil, List.sum_cons, List.sum_nil] at h2
    omega
  · have hinv := fcScan_inv events threshold events.length
    have hFlt : ∀ j ∈ F, j < events.length := hinv.1
    have hchain : F.Chain' (fun a b => a + 5 < b) := hinv.2.1
    have hmono : F.Pairwise (· < ·) :=
      (List.chain'_iff_pairwise).mp (hchain.imp (fun h => by omega))
    have hget := List.pairwise_iff_getElem.mp hmono
    set mkSl : Nat → List BatteryEvent := fun i =>
      jsSlice events (sessionRange events F i).1 ((sessionRange events F i).2 + 1)
      with hmkSl
    have hCS : createSessions events F =
        ((List.range F.length).map mkSl).filter (fun sl => sl.length > 1) := by
      simp only [createSessions, hFe, Bool.false_eq_true, if_false, hmkSl]
    set c : Nat → Nat := fun i => (mkSl i).count e with hc
    have h1 : ∀ i, c i ≤ 1 := fun i =>
      le_trans ((jsSlice_sublist events _ _).count_le e) hcnt
    have hsumle : ((createSessions events F).map (fun sl => sl.count e)).sum ≤
        ((List.range F.length).map c).sum := by
      rw [hCS]
      have hsub := (@List.filter_sublist _ (fun sl => sl.length > 1)
        ((List.range F.length).map mkSl)).map (fun sl => sl.count e)
      have := hsub.sum_le_sum (by intro a _; exact Nat.zero_le a)
      rw [List.map_map] at this
      exact this
    have hA : ∀ i j, i < j → j < F.length → 0 < c i → 0 < c j →
        j = i + 1 ∧ F.getD (i + 1) 0 ∈ F ∧ events[F.getD (i + 1) 0]? = some e := by
      intro i j hij hjlt hci hcj
      have hei : e ∈ mkSl i := List.count_pos_iff.mp hci
      have hej : e ∈ mkSl j := List.count_pos_iff.mp hcj
      obtain ⟨ki, hki1, hki2, hki3⟩ := mem_jsSlice events _ _ e hei
      obtain ⟨kj, hkj1, hkj2, hkj3⟩ := mem_jsSlice events _ _ e hej
      obtain ⟨hkib, hkie⟩ := List.getElem?_eq_some.mp hki3
      obtain ⟨hkjb, hkje⟩ := List.getElem?_eq_some.mp hkj3
      have hkk : ki = kj :=
        (List.Nodup.getElem_inj_iff hnd).mp (hkie.trans hkje.symm)
      subst hkk
      have hilt : i < F.length := by omega
      have hi1lt : i + 1 < F.length := by omega
      have hendi : (sessionRange events F i).2 = F.getD (i + 1) 0 := by
        simp only [sessionRange]
        rw [if_pos (by omega)]
      have hsj : F.getD j 0 ≤ (sessionRange events F j).1 := by
        simp only [sessionRange]
        exact dischargeStart_ge events _ _
      rw [hendi] at hki2
      have hgd1 : F.getD (i + 1) 0 = F[i + 1] := List.getD_eq_getElem F 0 hi1lt
      have hgdj : F.getD j 0 = F[j] := List.getD_eq_getElem F 0 hjlt
      have hFij : F[i + 1] ≤ F[j] := by
        rcases Nat.lt_or_ge (i + 1) j with hlt | hge
        · exact le_of_lt (hget (i + 1) j hi1lt hjlt hlt)
        · have hj : j = i + 1 := by omega
          subst hj
          exact le_refl _
      have hkF : ki = F[i + 1] := by
        rw [hgd1] at hki2
        rw [hgdj] at hsj
        omega
      have hjeq : j = i + 1 := by
        by_contra hne
        have hlt : i + 1 < j := by omega
        have := hget (i + 1) j hi1lt hjlt hlt
        rw [hgd1] at hki2
        rw [hgdj] at hsj
        omega
      refine ⟨hjeq, ?_, ?_⟩
      · rw [hgd1]; exact List.getElem_mem hi1lt
      · rw [hgd1, ← hkF]
        exact hki3
    refine ⟨le_trans hsumle (sum_range_le_two c F.length h1 ?_), ?_⟩
    · intro i j hij hjlt hci hcj
      exact (hA i j hij hjlt hci hcj).1
    · intro hs2
      obtain ⟨i, j, hij, hjlt, hci, hcj⟩ :=
        sum_range_two_exists c F.length h1 (le_trans hs2 hsumle)
      obtain ⟨_, hmem, hgete⟩ := hA i j hij hjlt hci hcj
      exact ⟨F.getD (i + 1) 0, hmem, hgete⟩

/-- On a non-empty input, the returned sessions are the analyzed carved
slices. -/
theorem detectSessions_sessions (data : ParsedBatteryData) (threshold : ℚ)
    (h : data.events.length ≠ 0) :
    (detectSessions data threshold).sessions =
      (createSessions data.events (findFullChargeEvents data.events threshold)).mapIdx
        (fun index session => analyzeSession session (index + 1)) := by
  simp [detectSessions, h]

/-- On a non-empty input, the returned boundary indices are those of the
scan. -/
theorem detectSessions_fullChargeEvents (data : ParsedBatteryData) (threshold : ℚ)
    (h : data.events.length ≠ 0) :
    (detectSessions data threshold).fullChargeEvents =
      findFullChargeEvents data.events threshold := by
  simp [detectSessions, h]

/-- C1 (amended): sessions are not pairwise disjoint in general — the
slice carved for boundary `i` extends through boundary `i+1` inclusive —
but overlap is confined to recorded boundaries: over a duplicate-free
event list every event belongs to at most two sessions' `events` slices,
and an event in two slices sits at a recorded full-charge boundary
index. -/
theorem c1_amended_at_most_two (data : ParsedBatteryData) (threshold : ℚ)
    (e : BatteryEvent) (hnd : data.events.Nodup) :
    (((detectSessions data threshold).sessions.map
        (fun s => s.events.count e)).sum ≤ 2) ∧
    (2 ≤ ((detectSessions data threshold).sessions.map
        (fun s => s.events.count e)).sum →
      ∃ i ∈ (detectSessions data threshold).fullChargeEvents,
        data.events[i]? = some e) := by
  by_cases hlen : data.events.length = 0
  · simp [detectSessions, hlen, createEmptyAnalysis]
  · rw [detectSessions_sessions data threshold hlen,
      detectSessions_fullChargeEvents data threshold hlen, mapIdx_analyze_count]
    exact createSessions_count data.events threshold hnd e

/-- The boundary scan on `cx1Events` with the default threshold records
indices 0 and 6. -/
theorem cx1_fce : findFullChargeEvents cx1Events 98 = [0, 6] := by
  have h98 : ((98 : Int) : ℚ) = 98 := by norm_cast
  rw [← h98, findFullChargeEvents_intCast]
  decide

/-- C1 counterexample: the boundary event at index 6 of `cx1Events`
appears in two different sessions' `events` slices of the returned
analysis (as the last event of session 1 and the first of session 2),
although it occurs exactly once in the input — the sessions returned by
`detectSessions` are not pairwise disjoint. -/
theorem c1_counterexample :
    (((detectSessions cx1Data 98).sessions.map
        (fun s => s.events.count cx1Ev6)).sum = 2) ∧
    cx1Data.events.count cx1Ev6 = 1 := by
  have hsess := detectSessions_sessions cx1Data 98 (by decide)
  rw [hsess, mapIdx_analyze_count]
  show ((createSessions cx1Events (findFullChargeEvents cx1Events 98)).map
      (fun sl => sl.count cx1Ev6)).sum = 2 ∧ cx1Data.events.count cx1Ev6 = 1
  rw [cx1_fce]
  constructor
  · decide
  · decide

/-- C1 witness: the amended bound instantiated on `cx1Data` (whose
events are duplicate-free, discharged concretely): the event at index 6
belongs to at most two sessions, and being in two, sits at a recorded
boundary. -/
theorem c1_witness :
    ((detectSessions cx1Data 98).sessions.map
      (fun s => s.events.count cx1Ev6)).sum ≤ 2 :=
  (c1_amended_at_most_two cx1Data 98 cx1Ev6 (by decide)).1

/-- C4 witness: the characterization instantiated at index 6 of
`cx1Events` with threshold 98: the percent condition holds (100 ≥ 98) and
the only earlier recorded boundary, index 0, is more than 5 positions
back, so index 6 is recorded. -/
theorem c4_witness : 6 ∈ findFullChargeEvents cx1Events 98 := by
  apply (c4_full_charge_characterization cx1Events 98 6 (by decide)).mpr
  constructor
  · apply Or.inl
    have h6 : cx1Events[6].percent = 100 := rfl
    rw [h6]
    norm_num
  · rw [cx1_fce]
    intro j hj hlt
    simp only [List.mem_cons, List.mem_singleton] at hj
    rcases hj with rfl | rfl | hj
    · omega
    · omega
    · simp at hj

/-! ### Time attribution (for C10) -/

/-- One fold step adds exactly the pair's bucket contribution. -/
theorem bucketMin_drainStep (acc : DrainAccum) (p : BatteryEvent × BatteryEvent) :
    bucketMin (drainStep acc p) = bucketMin acc + pairContrib p := by
  rcases p with ⟨cur, nxt⟩
  rcases hst : cur.state <;>
    simp [drainStep, bucketMin, pairContrib, pairDelta, hst] <;> ring

/-- The fold adds exactly the sum of the pairs' bucket contributions. -/
theorem bucketMin_foldl (L : List (BatteryEvent × BatteryEvent)) (init : DrainAccum) :
    bucketMin (L.foldl drainStep init) = bucketMin init + (L.map pairContrib).sum := by
  induction L generalizing init with
  | nil => simp
  | cons p rest ih =>
    rw [List.foldl_cons, ih, bucketMin_drainStep]
    rw [List.map_cons, List.sum_cons]
    ring

/-- On a timestamp-sorted list the pair intervals telescope to the whole
span. -/
theorem pairDelta_telescope (l : List BatteryEvent)
    (hsort : l.Chain' (fun a b => tQ a ≤ tQ b)) (hne : l ≠ []) :
    ((l.zip l.tail).map pairDelta).sum =
      (tQ (l.getLastD dummyEvent) - tQ (l.headD dummyEvent)) / 60 := by
  induction l with
  | nil => exact absurd rfl hne
  | cons x rest ih =>
    match rest, hsort with
    | [], _ => simp
    | y :: rest2, hsort =>
      have hxy : tQ x ≤ tQ y := (List.chain'_cons.mp hsort).1
      have ihy := ih (List.chain'_cons.mp hsort).2 (by simp)
      have hzip : (x :: y :: rest2).zip (x :: y :: rest2).tail =
          (x, y) :: ((y :: rest2).zip (y :: rest2).tail) := rfl
      rw [hzip, List.map_cons, List.sum_cons, ihy]
      have hd : pairDelta (x, y) = (tQ y - tQ x) / 60 := by
        simp only [pairDelta]
        rw [max_eq_right (by linarith)]
      rw [hd]
      simp only [List.getLastD_eq_getLast?, List.getLast?_cons_cons, List.headD]
      ring

/-- Every pair interval is non-negative. -/
theorem pairDelta_nonneg (p : BatteryEvent × BatteryEvent) : 0 ≤ pairDelta p :=
  le_max_left 0 _

/-- C10: for every non-empty session slice sorted non-decreasing by parsed
timestamp, `activeMinutes + idleMinutes + chargingMinutes ≤ durationMin`,
and strictly so as soon as some non-final event has state `Unknown` with a
positive time gap to its successor: that interval is attributed to no
bucket. -/
theorem c10_unknown_time_unattributed (events : List BatteryEvent) (sessionId : Nat)
    (hne : events ≠ [])
    (hsort : events.Chain' (fun a b => tQ a ≤ tQ b)) :
    ((analyzeSession events sessionId).activeMinutes +
      (analyzeSession events sessionId).idleMinutes +
      (analyzeSession events sessionId).chargingMinutes ≤
      (analyzeSession events sessionId).durationMin) ∧
    ((∃ p ∈ events.zip events.tail, p.1.state = .Unknown ∧ tQ p.1 < tQ p.2) →
      (analyzeSession events sessionId).activeMinutes +
        (analyzeSession events sessionId).idleMinutes +
        (analyzeSession events sessionId).chargingMinutes <
        (analyzeSession events sessionId).durationMin) := by
  match events, hne with
  | e0 :: rest, _ =>
    have hbucket : (analyzeSession (e0 :: rest) sessionId).activeMinutes +
        (analyzeSession (e0 :: rest) sessionId).idleMinutes +
        (analyzeSession (e0 :: rest) sessionId).chargingMinutes =
        (((e0 :: rest).zip (e0 :: rest).tail).map pairContrib).sum := by
      have : (analyzeSession (e0 :: rest) sessionId).activeMinutes +
          (analyzeSession (e0 :: rest) sessionId).idleMinutes +
          (analyzeSession (e0 :: rest) sessionId).chargingMinutes =
          bucketMin (((e0 :: rest).zip (e0 :: rest).tail).foldl drainStep
            { activeMinutes := 0, idleMinutes := 0, chargingMinutes := 0,
              activeDrainPct := 0, idleDrainPct := 0, activeDrainmWh := 0,
              idleDrainmWh := 0 }) := rfl
      rw [this, bucketMin_foldl]
      simp [bucketMin]
    have htele := pairDelta_telescope (e0 :: rest) hsort (by simp)
    have hdur : (analyzeSession (e0 :: rest) sessionId).durationMin =
        (((e0 :: rest).zip (e0 :: rest).tail).map pairDelta).sum := by
      have hdd : (analyzeSession (e0 :: rest) sessionId).durationMin =
          max 0 ((tQ ((e0 :: rest).getLastD dummyEvent) - tQ e0) / 60) := rfl
      have hnn : 0 ≤ (((e0 :: rest).zip (e0 :: rest).tail).map pairDelta).sum :=
        List.sum_nonneg (by
          intro x hx
          obtain ⟨p, _, rfl⟩ := List.mem_map.mp hx
          exact pairDelta_nonneg p)
      rw [hdd, htele]
      rw [htele] at hnn
      simp only [List.headD] at hnn ⊢
      exact max_eq_right hnn
    have hpt : ∀ p ∈ (e0 :: rest).zip (e0 :: rest).tail,
        pairContrib p ≤ pairDelta p := by
      intro p _
      by_cases hu : p.1.state = .Unknown
      · simp [pairContrib, hu, pairDelta_nonneg p]
      · simp [pairContrib, hu]
    constructor
    · rw [hbucket, hdur]
      exact List.sum_le_sum hpt
    · rintro ⟨p, hp, hpu, hplt⟩
      rw [hbucket, hdur]
      refine List.sum_lt_sum pairContrib pairDelta hpt ⟨p, hp, ?_⟩
      simp only [pairContrib, hpu, if_pos]
      simp only [pairDelta]
      rw [max_eq_right (by linarith)]
      have : 0 < (tQ p.2 - tQ p.1) / 60 := by
        apply div_pos (by linarith) (by norm_num)
      linarith

/-- C10 witness: the theorem instantiated on `c10Events`, all hypotheses
discharged concretely; the leading `Unknown` hour is attributed to no
bucket, so the bucketed minutes fall strictly short of the duration. -/
theorem c10_witness :
    (analyzeSession c10Events 1).activeMinutes +
      (analyzeSession c10Events 1).idleMinutes +
      (analyzeSession c10Events 1).chargingMinutes <
      (analyzeSession c10Events 1).durationMin := by
  have h0 : jsGetTime "2025-08-25 00:00:00" = some 63923299200 := by decide
  have h1 : jsGetTime "2025-08-25 01:00:00" = some 63923302800 := by decide
  have h2 : jsGetTime "2025-08-25 02:00:00" = some 63923306400 := by decide
  have hsort : c10Events.Chain' (fun a b => tQ a ≤ tQ b) := by
    simp only [c10Events, List.chain'_cons, List.chain'_singleton, and_true]
    constructor
    · simp only [tQ, c10e0, c10e1, h0, h1, Option.getD_some]
      norm_num
    · simp only [tQ, c10e1, c10e2, h1, h2, Option.getD_some]
      norm_num
  apply (c10_unknown_time_unattributed c10Events 1 (by simp [c10Events]) hsort).2
  refine ⟨(c10e0, c10e1), by decide, rfl, ?_⟩
  simp only [tQ, c10e0, c10e1, h0, h1, Option.getD_some]
  norm_num

end SotTracker
